import Mathlib

/-!
Shallow embedding of the `project-fire-backend` user and employee
controllers.

The repository contains two user controllers:
* `src/unnamed/part_001` — a Prisma-based controller (`Users1` below);
* `src/unnamed/part_000` — a Mongoose-based controller (`Users0` below),
  which also carries the register / login / password-reset handlers and a
  cascading delete;
and one employee controller `src/src/controllers/employeesController.ts`
(`Employees` below).

Database state is modelled as lists of records; `find`/`findOne`/`findById`
become `List.find?`, `delete` becomes `List.filter`, `update`/`save`
becomes `List.map` guarded on the id.  HTTP errors are a status plus the
exact message string thrown by the source.  bcrypt hashing and comparison
are opaque function parameters; dates are natural numbers supplied as a
`now` parameter.
-/

namespace ProjectFire

/-- The `Role` enum of the Prisma schema / `UserRole` of the Mongoose model. -/
inductive Role where
  | Admin : Role
  | Guest : Role
deriving DecidableEq, Repr

/-- An error as produced by `createHttpError(status, message)`. -/
structure HttpError where
  status : Nat
  message : String
deriving DecidableEq, Repr

/-! ## `src/unnamed/part_001` — Prisma users controller -/

namespace Users1

/-- A row of the Prisma `user` table (the fields the delete path reads). -/
structure User where
  id : String
  email : String
  password : String
  role : Role
deriving DecidableEq, Repr

/-- The authenticated caller (`req.user`), `none` when absent. -/
structure Caller where
  id : String
  role : Role
deriving DecidableEq, Repr

/-- The guard `loggedInUser?.role !== Role.Admin && loggedInUser?.id !== userId`
(the delete handler throws 403 when this JS condition is true; with
`loggedInUser` undefined both inequalities hold). -/
def callerForbidden (caller : Option Caller) (userId : String) : Bool :=
  match caller with
  | none => true
  | some c => ¬(c.role = Role.Admin) && ¬(c.id = userId)

/-- `user.id !== loggedInUser?.id` from the admin-target guard. -/
def idMismatch (caller : Option Caller) (targetId : String) : Bool :=
  match caller with
  | none => true
  | some c => ¬(targetId = c.id)

/-- `deleteUser` of `src/unnamed/part_001` (lines 115–141): caller check,
lookup, admin-target check, then `prisma.user.delete`.  Success returns the
remaining table (the handler answers 204 with no body). -/
def deleteUser (caller : Option Caller) (users : List User) (userId : String) :
    Except HttpError (List User) :=
  if callerForbidden caller userId then
    .error ⟨403, "This user is not allowed to delete other users."⟩
  else
    match users.find? (fun u => u.id = userId) with
    | none => .error ⟨404, "User not found."⟩
    | some user =>
      if user.role = Role.Admin && idMismatch caller user.id then
        .error ⟨403, "Cannot delete an admin user."⟩
      else
        .ok (users.filter (fun u => ¬(u.id = userId)))

/-- `updateUser` of `src/unnamed/part_001` shares the identical caller
guard (lines 49–50), kept here for the C2 comparison. -/
def updateUserCallerForbidden (caller : Option Caller) (userId : String) : Bool :=
  callerForbidden caller userId

end Users1

/-! ## `src/unnamed/part_000` — Mongoose users controller -/

namespace Users0

/-- A `UserModel` document (fields read by the handlers modelled here). -/
structure MUser where
  id : String
  email : String
  password : String
  firstName : String
  lastName : String
  role : Role
  employee : Option String
deriving DecidableEq, Repr

/-- An `EmployeeModel` document (id and the registration fields). -/
structure MEmployee where
  id : String
  firstName : String
  lastName : String
deriving DecidableEq, Repr

/-- One entry of a project's `employees` array: employee reference and
part-time flag. -/
structure ProjEntry where
  employee : String
  partTime : Bool
deriving DecidableEq, Repr

/-- A `ProjectModel` document. -/
structure MProject where
  id : String
  name : String
  employees : List ProjEntry
deriving DecidableEq, Repr

/-- A password-reset `TokenModel` document. -/
structure MToken where
  user : String
  token : String
deriving DecidableEq, Repr

/-- The whole Mongoose store. -/
structure MState where
  users : List MUser
  employees : List MEmployee
  projects : List MProject
  tokens : List MToken
deriving DecidableEq, Repr

/-- `deleteUser` of `src/unnamed/part_000` (lines 281–314).  Note: the
handler never reads the authenticated caller; its only request-dependent
check besides the lookup is `req.body.userId === userId`.  On success it
removes the employee from every project's membership list, then deletes
the user and the employee. -/
def deleteUser (s : MState) (userId : String) (bodyUserId : Option String) :
    MState × Except HttpError String :=
  match s.users.find? (fun u => u.id = userId) with
  | none => (s, .error ⟨404, "User not found."⟩)
  | some user =>
    if user.role = Role.Admin then
      (s, .error ⟨403, "Cannot delete an admin user."⟩)
    else if bodyUserId = some userId then
      (s, .error ⟨403, "You are not authorized to delete yourself."⟩)
    else
      match user.employee.bind (fun eid => s.employees.find? (fun e => e.id = eid)) with
      | none => (s, .error ⟨404, "Employee not found."⟩)
      | some emp =>
        let projects' := s.projects.map (fun p =>
          if p.employees.any (fun en => en.employee = emp.id) then
            { p with employees := p.employees.filter (fun en => ¬(en.employee = emp.id)) }
          else p)
        let s' : MState :=
          { s with
            projects := projects',
            users := s.users.filter (fun u => ¬(u.id = userId)),
            employees := s.employees.filter (fun e => ¬(e.id = emp.id)) }
        (s', .ok "User deleted successfully.")

/-- `registerUser` of `src/unnamed/part_000` (lines 69–148), modelled for
requests without a file upload.  Persistence failure of `UserModel.create`
is injected through the `userCreateOk` flag; the propagated persistence
error is represented as a 500.  The catch block's compensation
(`if (employee && !user) await employee.deleteOne()`) is the final
`filter` on the failure branch. -/
def registerUser (hash : String → String) (s : MState)
    (email pw firstName lastName : String) (role : Role)
    (newEmpId newUserId : String) (userCreateOk : Bool) :
    MState × Except HttpError String :=
  if email = "" || pw = "" || firstName = "" || lastName = "" then
    (s, .error ⟨400, "Missing required fields."⟩)
  else if s.users.any (fun u => u.email = email) then
    (s, .error ⟨409, "Email already registered."⟩)
  else
    let emp : MEmployee := ⟨newEmpId, firstName, lastName⟩
    let s1 := { s with employees := s.employees ++ [emp] }
    if userCreateOk then
      let u : MUser := ⟨newUserId, email, hash pw, firstName, lastName, role, some newEmpId⟩
      ({ s1 with users := s1.users ++ [u] }, .ok newUserId)
    else
      ({ s1 with employees := s1.employees.filter (fun e => ¬(e.id = newEmpId)) },
        .error ⟨500, "User creation failed."⟩)

/-- The success payload of `loginUser` (user id carried in the token's
subject claim, and the `expiresIn` value). -/
structure LoginOk where
  userId : String
  expiresIn : Nat
deriving DecidableEq, Repr

/-- `loginUser` of `src/unnamed/part_000` (lines 150–189).  `bcrypt.compare`
is the opaque `verify` parameter; the signed token string itself is not
modelled. -/
def loginUser (verify : String → String → Bool) (s : MState)
    (email pw : String) (rememberMe : Bool) : Except HttpError LoginOk :=
  if email = "" || pw = "" then
    .error ⟨400, "Missing required fields."⟩
  else
    match s.users.find? (fun u => u.email = email) with
    | none => .error ⟨401, "Invalid email or password."⟩
    | some user =>
      if verify pw user.password then
        .ok ⟨user.id, if rememberMe then 1000 * 60 * 60 * 24 * 7 else 1000 * 60 * 60 * 24⟩
      else
        .error ⟨401, "Invalid email or password."⟩

/-- `resetPassword` of `src/unnamed/part_000` (lines 246–279): look up the
user by id, look up a Token document matching both the user id and the
exact token string, require a password, then overwrite the stored password
with the new hash (`user.save()`) and delete the consumed token document
(`tokenObj.deleteOne()`). -/
def resetPassword (hash : String → String) (s : MState)
    (userId token pw : String) : MState × Except HttpError String :=
  match s.users.find? (fun u => u.id = userId) with
  | none => (s, .error ⟨400, "Link is invalid or has expired."⟩)
  | some user =>
    match s.tokens.find? (fun t => t.user = user.id && t.token = token) with
    | none => (s, .error ⟨400, "Link is invalid or has expired."⟩)
    | some _ =>
      if pw = "" then (s, .error ⟨400, "Password not provided."⟩)
      else
        ({ s with
            users := s.users.map (fun u =>
              if u.id = user.id then { u with password := hash pw } else u),
            tokens := s.tokens.eraseP (fun t => t.user = user.id && t.token = token) },
          .ok "Your password has been reset successfully.")

end Users0

/-! ## `src/src/controllers/employeesController.ts` — Prisma employees controller -/

namespace Employees

/-- A row of the Prisma `employee` table (enum-valued columns carried as
opaque strings). -/
structure Employee where
  id : String
  firstName : String
  lastName : String
  currency : String
  department : String
  techStack : String
  salary : Nat
  isEmployed : Bool
  isEmployedDate : Nat
deriving DecidableEq, Repr

/-- The query parameters of `GET /api/employees`.  A present query-string
value is `some`; note that the JS string "0" is truthy, so `take = "0"`
arrives as `some 0`. -/
structure EmpQuery where
  searchTerm : String
  currency : Option String
  department : Option String
  techStack : Option String
  isEmployed : Option Bool
  take : Option Nat
  page : Option Nat
deriving Repr

/-- `needle.isPrefixOf`-style check, spelled out. -/
def prefAt : List Char → List Char → Bool
  | [], _ => true
  | _ :: _, [] => false
  | a :: n, b :: h => a == b && prefAt n h

/-- Substring test on character lists. -/
def isSubstr : List Char → List Char → Bool
  | n, [] => n.isEmpty
  | n, c :: t => prefAt n (c :: t) || isSubstr n t

/-- `toLowerCase` of a character list. -/
def lowerL (l : List Char) : List Char := l.map Char.toLower

/-- Prisma `contains` with `mode: "insensitive"`: case-insensitive
substring test of `needle` inside `hay`. -/
def containsCI (hay needle : List Char) : Bool :=
  isSubstr (lowerL needle) (lowerL hay)

/-- Prisma `contains` with a possibly-`undefined` needle: an `undefined`
needle drops the condition, so it always holds. -/
def containsCond (hay : List Char) : Option (List Char) → Bool
  | none => true
  | some needle => containsCI hay needle

/-- JS `String.prototype.split(" ")` on a character list. -/
def splitSp : List Char → List (List Char)
  | [] => [[]]
  | c :: t =>
    if c = ' ' then [] :: splitSp t
    else
      match splitSp t with
      | [] => [[c]]
      | x :: xs => (c :: x) :: xs

/-- `searchTerm && searchTerm.split(" ")[0]`: for the empty term the JS
value is `""` (an always-true `contains`), which coincides with
`split(" ")[0]` of the empty string. -/
def tok0 (term : List Char) : List Char := (splitSp term).headD []

/-- `searchTerm && searchTerm.split(" ")[1]`: `some []` for the empty term
(the falsy `""` itself becomes the needle), otherwise the second token,
which is `undefined` (`none`, condition dropped) when the term has no
space. -/
def tok1? (term : List Char) : Option (List Char) :=
  if term.isEmpty then some [] else (splitSp term)[1]?

/-- The `where.OR` of `getEmployees` (lines 38–68): the
(first-token, second-token) AND pair, or the whole term against the first
name, or the whole term against the last name. -/
def matchesSearchL (term first last : List Char) : Bool :=
  (containsCI first (tok0 term) && containsCond last (tok1? term))
  || containsCI first term || containsCI last term

/-- String-level wrapper of `matchesSearchL`. -/
def matchesSearch (term first last : String) : Bool :=
  matchesSearchL term.toList first.toList last.toList

/-- Whether the term contains a space. -/
def hasSpace (term : List Char) : Bool := term.any (fun c => c = ' ')

/-- Modelled from the spec's wording of the search semantics: the term is
a case-insensitive substring of the first name, or of the last name, or —
when the term contains a space — the token before the first space is a
substring of the first name and the token after it a substring of the
last name. -/
def specSearchMatchesL (term first last : List Char) : Bool :=
  containsCI first term || containsCI last term
  || (hasSpace term && containsCI first (tok0 term)
      && containsCI last ((splitSp term)[1]?.getD []))

/-- String-level wrapper of `specSearchMatchesL`. -/
def specSearchMatches (term first last : String) : Bool :=
  specSearchMatchesL term.toList first.toList last.toList

/-- The full `where` object: search OR-block ANDed with each provided
filter; absent filters impose no constraint. -/
def matchesWhere (q : EmpQuery) (e : Employee) : Bool :=
  matchesSearch q.searchTerm e.firstName e.lastName
  && (match q.currency with | none => true | some c => e.currency = c)
  && (match q.department with | none => true | some d => e.department = d)
  && (match q.techStack with | none => true | some v => e.techStack = v)
  && (match q.isEmployed with | none => true | some b => e.isEmployed = b)

/-- `const skip = page && take ? (Number(page) - 1) * Number(take) : 0`
(line 30). -/
def empSkip (q : EmpQuery) : Nat :=
  match q.page, q.take with
  | some p, some t => (p - 1) * t
  | _, _ => 0

/-- The `findMany` result (lines 77–95): the filtered rows, ordered by the
opaque `ord` collaborator (identity when no `orderBy` is supplied), with
`skip` applied only when below the matching count, then `take`. -/
def empPage (db : List Employee) (ord : List Employee → List Employee)
    (q : EmpQuery) : List Employee :=
  let afterSkip :=
    if empSkip q < (db.filter (matchesWhere q)).length then
      (ord (db.filter (matchesWhere q))).drop (empSkip q)
    else ord (db.filter (matchesWhere q))
  match q.take with
  | some t => afterSkip.take t
  | none => afterSkip

/-- `const total = employees.length > 0 ? count : 0` (line 97). -/
def empTotal (db : List Employee) (ord : List Employee → List Employee)
    (q : EmpQuery) : Nat :=
  if 0 < (empPage db ord q).length then (db.filter (matchesWhere q)).length else 0

/-- `lastPage` (line 98); `none` models the non-finite JS value
(`Math.ceil(0/0)` is `NaN`, `Math.ceil(n/0)` is `Infinity` — both compare
false under `>`), arising exactly when `take = some 0`. -/
def empLastPage? (db : List Employee) (ord : List Employee → List Employee)
    (q : EmpQuery) : Option Nat :=
  match q.take with
  | some t => if t = 0 then none else some ((empTotal db ord q + t - 1) / t)
  | none => some (if 0 < empTotal db ord q then 1 else 0)

/-- `currentPage` (lines 99–105): a requested page is clamped to 1 when it
exceeds `lastPage`; a comparison against the non-finite `lastPage` is
false, leaving the requested page. -/
def empCurrentPage (db : List Employee) (ord : List Employee → List Employee)
    (q : EmpQuery) : Nat :=
  match q.page with
  | some p =>
    match empLastPage? db ord q with
    | some lp => if lp < p then 1 else p
    | none => p
  | none => if 0 < empTotal db ord q then 1 else 0

/-- The reported pagination metadata. -/
structure PageInfo where
  total : Nat
  currentPage : Nat
  lastPage? : Option Nat
  perPage : Nat
deriving DecidableEq, Repr

/-- `getEmployees` of `employeesController.ts` (lines 16–120): metadata
plus the page of employees. -/
def getEmployees (db : List Employee) (ord : List Employee → List Employee)
    (q : EmpQuery) : PageInfo × List Employee :=
  (⟨empTotal db ord q, empCurrentPage db ord q, empLastPage? db ord q,
      match q.take with | some t => t | none => empTotal db ord q⟩,
    empPage db ord q)

/-- The PATCH body of `updateEmployee`; absent fields are `none`.  A
supplied salary of `0` is falsy in JS, so it is not written. -/
structure EmpUpdate where
  firstName : Option String
  lastName : Option String
  department : Option String
  salary : Option Nat
  currency : Option String
  techStack : Option String
  isEmployed : Option Bool
deriving Repr

/-- `updateEmployee` of `employeesController.ts` (lines 197–255): Admin
guard, lookup, then a Prisma update in which `undefined` fields keep their
stored value and `isEmployedDate` is stamped with `new Date()` (`now`)
exactly when `isEmployed` is supplied and differs from the stored value. -/
def updateEmployee (caller : Option Users1.Caller) (db : List Employee)
    (employeeId : String) (body : EmpUpdate) (now : Nat) :
    Except HttpError (List Employee × Employee) :=
  match caller with
  | none => .error ⟨403, "This user is not allowed to update employees."⟩
  | some c =>
    if ¬(c.role = Role.Admin) then
      .error ⟨403, "This user is not allowed to update employees."⟩
    else
    match db.find? (fun e => e.id = employeeId) with
    | none => .error ⟨404, "Employee not found."⟩
    | some emp =>
      let isEmployedDate? : Option Nat :=
        match body.isEmployed with
        | some b => if ¬(b = emp.isEmployed) then some now else none
        | none => none
      let emp' : Employee :=
        { emp with
          firstName := body.firstName.getD emp.firstName,
          lastName := body.lastName.getD emp.lastName,
          department := body.department.getD emp.department,
          salary := match body.salary with
            | some sa => if sa = 0 then emp.salary else sa
            | none => emp.salary,
          currency := body.currency.getD emp.currency,
          techStack := body.techStack.getD emp.techStack,
          isEmployed := body.isEmployed.getD emp.isEmployed,
          isEmployedDate := isEmployedDate?.getD emp.isEmployedDate }
      .ok (db.map (fun e => if e.id = employeeId then emp' else e), emp')

end Employees

end ProjectFire

namespace ProjectFire

/-! ### C3: cascade of the part_000 user deletion -/

/-- **C3.** Every successful part_000 user deletion removes the linked
Employee record and strips every Project membership entry referencing it;
afterwards no employee row carries that id, no project references it, no
user row has the deleted id, and — provided the deleted user was the only
user linked to that employee, per the data model's zero-or-one relation —
no user references the employee either. -/
theorem c3_delete_cascade :
    ∀ (s : Users0.MState) (userId : String) (body : Option String)
      (s' : Users0.MState) (msg : String),
      Users0.deleteUser s userId body = (s', .ok msg) →
      ∃ u ∈ s.users, u.id = userId ∧ ∃ eid, u.employee = some eid ∧
        (∀ e ∈ s'.employees, e.id ≠ eid) ∧
        (∀ p ∈ s'.projects, ∀ en ∈ p.employees, en.employee ≠ eid) ∧
        (∀ v ∈ s'.users, v.id ≠ userId) ∧
        ((∀ v ∈ s.users, v.employee = some eid → v.id = userId) →
          ∀ v ∈ s'.users, v.employee ≠ some eid) := by
  intro s userId body s' msg h
  unfold Users0.deleteUser at h
  rcases hfind : s.users.find? (fun u => u.id = userId) with _ | user
  · rw [hfind] at h; simp at h
  · rw [hfind] at h
    by_cases hrole : user.role = Role.Admin
    · simp [hrole] at h
    · by_cases hbody : body = some userId
      · simp [hrole, hbody] at h
      · rcases hemp : user.employee with _ | eid
        · simp [hrole, hbody, hemp] at h
        · rcases hefind : s.employees.find? (fun e => e.id = eid) with _ | emp
          · simp [hrole, hbody, hemp, hefind] at h
          · simp only [hrole, hbody, hemp, hefind, if_neg, if_pos, Option.some_bind,
              ite_false, ite_true] at h
            have huid : user.id = userId := by
              have := List.find?_some hfind
              simpa using this
            have humem : user ∈ s.users := List.mem_of_find?_eq_some hfind
            have hempid : emp.id = eid := by
              have := List.find?_some hefind
              simpa using this
            have hs' : s' = { s with
                projects := s.projects.map (fun p =>
                  if p.employees.any (fun en => en.employee = emp.id) then
                    { p with employees := p.employees.filter (fun en => ¬(en.employee = emp.id)) }
                  else p),
                users := s.users.filter (fun u => ¬(u.id = userId)),
                employees := s.employees.filter (fun e => ¬(e.id = emp.id)) } := by
              have := congrArg Prod.fst h
              simpa using this.symm
            refine ⟨user, humem, huid, eid, hemp, ?_, ?_, ?_, ?_⟩
            · intro e he
              rw [hs'] at he
              simp only [List.mem_filter, decide_eq_true_eq] at he
              rw [← hempid]
              exact he.2
            · intro p hp en hen
              rw [hs'] at hp
              simp only [List.mem_map] at hp
              obtain ⟨q, hq, hpq⟩ := hp
              by_cases hany : q.employees.any (fun en => en.employee = emp.id)
              · rw [if_pos hany] at hpq
                rw [← hpq] at hen
                simp only [List.mem_filter, decide_eq_true_eq] at hen
                rw [← hempid]
                exact hen.2
              · rw [if_neg hany] at hpq
                rw [← hpq] at hen
                rw [List.any_eq_true] at hany
                push_neg at hany
                have := hany en hen
                simp only [ne_eq, decide_eq_true_eq] at this
                rw [← hempid]
                exact this
            · intro v hv
              rw [hs'] at hv
              simp only [List.mem_filter, decide_eq_true_eq] at hv
              exact hv.2
            · intro hunique v hv
              rw [hs'] at hv
              simp only [List.mem_filter, decide_eq_true_eq] at hv
              intro hveq
              exact hv.2 (hunique v hv.1 hveq)

/-- Store for the C3 witness: one Guest user linked to an employee who is
a member of one project. -/
def c3State : Users0.MState :=
  { users := [⟨"u1", "g@x", "h", "G", "T", Role.Guest, some "e1"⟩],
    employees := [⟨"e1", "G", "T"⟩],
    projects := [⟨"p1", "Fire", [⟨"e1", true⟩, ⟨"e9", false⟩]⟩],
    tokens := [] }

/-- **C3, witness.** The cascade conclusions evaluated on a concrete
store with a project membership. -/
theorem c3_delete_cascade_witness :
    ∃ u ∈ c3State.users, u.id = "u1" ∧ ∃ eid, u.employee = some eid ∧
      (∀ e ∈ (Users0.deleteUser c3State "u1" none).1.employees, e.id ≠ eid) ∧
      (∀ p ∈ (Users0.deleteUser c3State "u1" none).1.projects,
        ∀ en ∈ p.employees, en.employee ≠ eid) ∧
      (∀ v ∈ (Users0.deleteUser c3State "u1" none).1.users, v.id ≠ "u1") ∧
      ((∀ v ∈ c3State.users, v.employee = some eid → v.id = "u1") →
        ∀ v ∈ (Users0.deleteUser c3State "u1" none).1.users,
          v.employee ≠ some eid) :=
  c3_delete_cascade c3State "u1" none
    (Users0.deleteUser c3State "u1" none).1 "User deleted successfully." (by rfl)

/-! ### C4: compensating deletion of the freshly created employee -/

/-- **C4.** When registration passes validation and the email check, the
Employee record is created but the subsequent User creation fails, the
handler deletes the just-created Employee before surfacing the error: the
final store is exactly the initial one (no orphan Employee record
persists) and the result is the error. -/
theorem c4_register_no_orphan :
    ∀ (hash : String → String) (s : Users0.MState)
      (email pw firstName lastName : String) (role : Role)
      (newEmpId newUserId : String),
      ¬(email = "") → ¬(pw = "") → ¬(firstName = "") → ¬(lastName = "") →
      s.users.any (fun u => u.email = email) = false →
      (∀ e ∈ s.employees, e.id ≠ newEmpId) →
      Users0.registerUser hash s email pw firstName lastName role
          newEmpId newUserId false =
        (s, .error ⟨500, "User creation failed."⟩) := by
  intro hash s email pw firstName lastName role newEmpId newUserId
  intro hemail hpw hfn hln hnodup hfresh
  unfold Users0.registerUser
  rw [if_neg (by simp [hemail, hpw, hfn, hln]), if_neg (by simp [hnodup])]
  simp only [Bool.false_eq_true, if_false]
  have hfilter :
      (s.employees ++ ([⟨newEmpId, firstName, lastName⟩] : List Users0.MEmployee)).filter
          (fun e : Users0.MEmployee => ¬(e.id = newEmpId)) = s.employees := by
    rw [List.filter_append]
    have h1 : s.employees.filter (fun e : Users0.MEmployee => ¬(e.id = newEmpId)) =
        s.employees := by
      apply List.filter_eq_self.mpr
      intro e he
      simpa using hfresh e he
    have h2 : ([⟨newEmpId, firstName, lastName⟩] : List Users0.MEmployee).filter
        (fun e => ¬(e.id = newEmpId)) = [] := by
      simp
    rw [h1, h2, List.append_nil]
  rw [hfilter]

/-- **C4, witness.** Concrete failing registration: the store is returned
unchanged with the surfaced error. -/
theorem c4_register_no_orphan_witness :
    Users0.registerUser (fun p => String.append "hash:" p) c3State
        "new@x" "pw" "Jane" "Doe" Role.Guest "e77" "u77" false =
      (c3State, .error ⟨500, "User creation failed."⟩) :=
  c4_register_no_orphan (fun p => String.append "hash:" p) c3State
    "new@x" "pw" "Jane" "Doe" Role.Guest "e77" "u77"
    (by decide) (by decide) (by decide) (by decide) (by rfl) (by decide)

/-! ### C7: a reset token is consumed exactly once -/

/-- Looking up a user by id commutes with the password-overwrite map of
`resetPassword` (the rewrite keeps every id unchanged). -/
theorem find?_password_update (uid npw : String) :
    ∀ (l : List Users0.MUser),
      (l.map (fun u => if u.id = uid then { u with password := npw } else u)).find?
          (fun u => u.id = uid)
        = (l.find? (fun u => u.id = uid)).map
            (fun u => if u.id = uid then { u with password := npw } else u) := by
  intro l
  induction l with
  | nil => rfl
  | cons a t ih =>
    by_cases ha : a.id = uid
    · rw [List.map_cons, List.find?_cons_of_pos _ (by simp [ha]),
        List.find?_cons_of_pos _ (by simp [ha])]
      rfl
    · rw [List.map_cons, List.find?_cons_of_neg _ (by simp [ha]),
        List.find?_cons_of_neg _ (by simp [ha])]
      exact ih

/-- `resetPassword` fails with the generic 400 and leaves the store
untouched when the user exists but no Token document matches. -/
theorem resetPassword_error_of_no_token (hash : String → String)
    (s : Users0.MState) (userId token pw : String) (u : Users0.MUser)
    (hu : s.users.find? (fun v => v.id = userId) = some u)
    (ht : s.tokens.find? (fun t => t.user = u.id && t.token = token) = none) :
    Users0.resetPassword hash s userId token pw =
      (s, .error ⟨400, "Link is invalid or has expired."⟩) := by
  simp only [Users0.resetPassword, hu, ht]

/-- **C7.** A successful password reset overwrites the stored password of
the target user with the hash of the new password and deletes the consumed
Token document, so — given the at-most-one-live-token invariant for that
(user id, token) pair — a second reset attempt presenting the same pair
fails with the 400 error and returns the store unchanged. -/
theorem c7_reset_token_single_use :
    ∀ (hash : String → String) (s : Users0.MState) (userId token pw : String)
      (s' : Users0.MState) (msg : String),
      Users0.resetPassword hash s userId token pw = (s', .ok msg) →
      s.tokens.countP (fun t => t.user = userId && t.token = token) ≤ 1 →
      (∀ u ∈ s'.users, u.id = userId → u.password = hash pw) ∧
      (∀ pw2, Users0.resetPassword hash s' userId token pw2 =
        (s', .error ⟨400, "Link is invalid or has expired."⟩)) := by
  intro hash s userId token pw s' msg h hcount
  unfold Users0.resetPassword at h
  rcases hfind : s.users.find? (fun u => u.id = userId) with _ | user
  · rw [hfind] at h; simp at h
  · rw [hfind] at h
    simp only [] at h
    rcases htfind : s.tokens.find? (fun t => t.user = user.id && t.token = token)
      with _ | tok
    · rw [htfind] at h; simp at h
    · rw [htfind] at h
      by_cases hpw : pw = ""
      · simp [hpw] at h
      · rw [if_neg hpw] at h
        have huid : user.id = userId := by simpa using List.find?_some hfind
        have hs' : s' = { s with
            users := s.users.map (fun u =>
              if u.id = user.id then { u with password := hash pw } else u),
            tokens := s.tokens.eraseP
              (fun t => t.user = user.id && t.token = token) } := by
          have := congrArg Prod.fst h
          simpa using this.symm
        rw [huid] at hs' htfind
        -- the erased token list contains no further match
        have htokmem := List.mem_of_find?_eq_some htfind
        have hptok := List.find?_some htfind
        obtain ⟨a, l1, l2, hl1, hpa, heq, herase⟩ :=
          @List.exists_of_eraseP _
            (fun t : Users0.MToken => t.user = userId && t.token = token)
            _ _ htokmem hptok
        have hl1z : l1.countP (fun t => t.user = userId && t.token = token) = 0 :=
          List.countP_eq_zero.mpr hl1
        rw [heq] at hcount
        rw [List.countP_append,
          List.countP_cons_of_pos
            (fun t : Users0.MToken => t.user = userId && t.token = token) _ hpa,
          hl1z] at hcount
        have hl2z : l2.countP (fun t => t.user = userId && t.token = token) = 0 := by
          omega
        have hl2 := List.countP_eq_zero.mp hl2z
        have hnone : ((s.tokens.eraseP
              (fun t => t.user = userId && t.token = token)).find?
            (fun t => t.user = userId && t.token = token)) = none := by
          rw [herase, List.find?_eq_none]
          intro x hx
          rcases List.mem_append.mp hx with hx1 | hx2
          · exact hl1 x hx1
          · exact hl2 x hx2
        refine ⟨?_, ?_⟩
        · intro u hu huidu
          rw [hs'] at hu
          simp only [List.mem_map] at hu
          obtain ⟨v, hv, rfl⟩ := hu
          by_cases hvid : v.id = userId
          · simp [hvid]
          · rw [if_neg hvid] at huidu ⊢
            exact absurd huidu hvid
        · intro pw2
          have hfind2 : s'.users.find? (fun u => u.id = userId) =
              some { user with password := hash pw } := by
            rw [hs']
            show (s.users.map (fun u =>
                if u.id = userId then { u with password := hash pw } else u)).find?
                  (fun u => u.id = userId)
              = some { user with password := hash pw }
            rw [find?_password_update userId (hash pw) s.users, hfind]
            simp [huid]
          have hnone' : s'.tokens.find?
              (fun t => t.user = ({ user with password := hash pw } :
                  Users0.MUser).id && t.token = token) = none := by
            have hid : ({ user with password := hash pw } : Users0.MUser).id =
                userId := huid
            rw [hid, hs']
            show ((s.tokens.eraseP
                  (fun t => t.user = userId && t.token = token)).find?
                (fun t => t.user = userId && t.token = token)) = none
            exact hnone
          exact resetPassword_error_of_no_token hash s' userId token pw2
            { user with password := hash pw } hfind2 hnone'

/-- A hash stand-in for the C7 witness. -/
def c7hash : String → String := fun p => String.append "h:" p

/-- Store for the C7 witness: one user and one live reset token. -/
def c7St : Users0.MState :=
  { users := [⟨"u1", "e@x", "old", "A", "B", Role.Guest, none⟩],
    employees := [],
    projects := [],
    tokens := [⟨"u1", "tokX"⟩] }

/-- **C7, witness.** First reset succeeds on the concrete store; the
password is overwritten and any second attempt with the same pair is the
400 error leaving the store unchanged. -/
theorem c7_reset_token_single_use_witness :
    (∀ u ∈ (Users0.resetPassword c7hash c7St "u1" "tokX" "npw").1.users,
      u.id = "u1" → u.password = c7hash "npw") ∧
    (∀ pw2, Users0.resetPassword c7hash
        (Users0.resetPassword c7hash c7St "u1" "tokX" "npw").1 "u1" "tokX" pw2 =
      ((Users0.resetPassword c7hash c7St "u1" "tokX" "npw").1,
        .error ⟨400, "Link is invalid or has expired."⟩)) :=
  c7_reset_token_single_use c7hash c7St "u1" "tokX" "npw"
    (Users0.resetPassword c7hash c7St "u1" "tokX" "npw").1
    "Your password has been reset successfully." (by rfl) (by decide)

/-! ### C9: login failures are indistinguishable -/

/-- **C9.** A login attempt with an email matching no user and a login
attempt with a known email but a failing password comparison produce the
same error value: status 401 with the byte-identical message
"Invalid email or password.". -/
theorem c9_login_same_error :
    ∀ (verify : String → String → Bool) (s : Users0.MState)
      (e1 p1 e2 p2 : String) (rm1 rm2 : Bool) (u : Users0.MUser),
      ¬(e1 = "") → ¬(p1 = "") → ¬(e2 = "") → ¬(p2 = "") →
      s.users.find? (fun v => v.email = e1) = none →
      s.users.find? (fun v => v.email = e2) = some u →
      verify p2 u.password = false →
      Users0.loginUser verify s e1 p1 rm1 =
          .error ⟨401, "Invalid email or password."⟩ ∧
        Users0.loginUser verify s e2 p2 rm2 =
          .error ⟨401, "Invalid email or password."⟩ := by
  intro verify s e1 p1 e2 p2 rm1 rm2 u h1 h2 h3 h4 hn hs hv
  constructor
  · simp [Users0.loginUser, h1, h2, hn]
  · simp [Users0.loginUser, h3, h4, hs, hv]

/-- Store for the C9 witness: a single registered user. -/
def c9St : Users0.MState :=
  { users := [⟨"u1", "known@x", "h", "A", "B", Role.Guest, none⟩],
    employees := [], projects := [], tokens := [] }

/-- **C9, witness.** Concrete unknown-email and wrong-password attempts
both yield the identical 401 error. -/
theorem c9_login_same_error_witness :
    Users0.loginUser (fun _ _ => false) c9St "ghost@x" "pw" false =
        .error ⟨401, "Invalid email or password."⟩ ∧
      Users0.loginUser (fun _ _ => false) c9St "known@x" "wrong" true =
        .error ⟨401, "Invalid email or password."⟩ :=
  c9_login_same_error (fun _ _ => false) c9St "ghost@x" "pw" "known@x" "wrong"
    false true ⟨"u1", "known@x", "h", "A", "B", Role.Guest, none⟩
    (by decide) (by decide) (by decide) (by decide) (by rfl) (by rfl) (by rfl)

/-! ### C6: search semantics of the employee listing -/

/-- The empty needle is a substring of everything. -/
theorem isSubstr_nil_needle : ∀ h : List Char, Employees.isSubstr [] h = true := by
  intro h
  cases h with
  | nil => rfl
  | cons c t => rfl

/-- The empty needle matches under `containsCI` as well. -/
theorem containsCI_nil_needle : ∀ h : List Char, Employees.containsCI h [] = true := by
  intro h
  unfold Employees.containsCI Employees.lowerL
  simpa using isSubstr_nil_needle (h.map Char.toLower)

/-- `split(" ")` never yields the empty list. -/
theorem splitSp_ne_nil : ∀ l : List Char, Employees.splitSp l ≠ [] := by
  intro l
  cases l with
  | nil => simp [Employees.splitSp]
  | cons c t =>
    simp only [Employees.splitSp]
    by_cases hc : c = ' '
    · simp [hc]
    · rcases h : Employees.splitSp t with _ | ⟨x, xs⟩ <;> simp [hc, h]

/-- Splitting a space-free list yields the singleton of the list. -/
theorem splitSp_no_space :
    ∀ l : List Char, (∀ c ∈ l, ¬(c = ' ')) → Employees.splitSp l = [l] := by
  intro l
  induction l with
  | nil => intro _; rfl
  | cons c t ih =>
    intro h
    have hc : ¬(c = ' ') := h c (List.mem_cons_self c t)
    have ht := ih (fun x hx => h x (List.mem_cons_of_mem c hx))
    simp only [Employees.splitSp]
    rw [if_neg hc, ht]

/-- Splitting a list containing a space yields at least two tokens. -/
theorem splitSp_space_len :
    ∀ l : List Char, ' ' ∈ l → 2 ≤ (Employees.splitSp l).length := by
  intro l
  induction l with
  | nil => intro h; simp at h
  | cons c t ih =>
    intro h
    by_cases hc : c = ' '
    · simp only [Employees.splitSp, if_pos hc, List.length_cons]
      have h1 : 1 ≤ (Employees.splitSp t).length := by
        cases hsp : Employees.splitSp t with
        | nil => exact absurd hsp (splitSp_ne_nil t)
        | cons a b => simp
      omega
    · have ht : ' ' ∈ t := by
        rcases List.mem_cons.mp h with h1 | h2
        · exact absurd h1.symm hc
        · exact h2
      have h2 := ih ht
      simp only [Employees.splitSp, if_neg hc]
      rcases hsp : Employees.splitSp t with _ | ⟨x, xs⟩
      · exact absurd hsp (splitSp_ne_nil t)
      · rw [hsp] at h2
        simp only [List.length_cons] at h2 ⊢
        omega

/-- Boolean rearrangement used for the space case of C6. -/
theorem bool_or_shuffle :
    ∀ a b c d : Bool, ((a && b) || c || d) = (c || d || (true && a && b)) := by
  decide

/-- The code's OR-block and the spec's description agree on every term and
name pair (character-list level). -/
theorem matchesSearchL_eq_spec :
    ∀ term first last : List Char,
      Employees.matchesSearchL term first last =
        Employees.specSearchMatchesL term first last := by
  intro term first last
  by_cases hsp : ' ' ∈ term
  · have hlen := splitSp_space_len term hsp
    have hx : (Employees.splitSp term)[1]? = some ((Employees.splitSp term)[1]) :=
      List.getElem?_eq_getElem (by omega)
    have hne : ¬ term.isEmpty = true := by
      cases term with
      | nil => simp at hsp
      | cons c t => simp
    have hhas : Employees.hasSpace term = true := by
      unfold Employees.hasSpace
      rw [List.any_eq_true]
      exact ⟨' ', hsp, by simp⟩
    unfold Employees.matchesSearchL Employees.specSearchMatchesL Employees.tok1?
    rw [if_neg hne, hx, hhas]
    simp only [Employees.containsCond, Option.getD_some]
    exact bool_or_shuffle _ _ _ _
  · cases term with
    | nil =>
      simp [Employees.matchesSearchL, Employees.specSearchMatchesL,
        Employees.tok0, Employees.tok1?, Employees.containsCond,
        containsCI_nil_needle, Employees.splitSp]
    | cons c t =>
      have hns : ∀ x ∈ c :: t, ¬(x = ' ') := by
        intro x hx hxeq
        exact hsp (hxeq ▸ hx)
      have hsplit := splitSp_no_space (c :: t) hns
      have hne : ¬ (c :: t).isEmpty = true := by simp
      have hhas : Employees.hasSpace (c :: t) = false := by
        unfold Employees.hasSpace
        rw [List.any_eq_false]
        intro x hx
        simpa using hns x hx
      unfold Employees.matchesSearchL Employees.specSearchMatchesL
        Employees.tok0 Employees.tok1?
      rw [if_neg hne, hsplit, hhas]
      simp only [List.headD_cons, List.getElem?_cons_succ, List.getElem?_nil,
        Employees.containsCond, Bool.and_true, Bool.false_and, Bool.or_false,
        Bool.or_self]

/-- **C6.** In the employee listing `where` clause with no filters, an
employee matches exactly when the spec's search description says so: the
term is a case-insensitive substring of the first name, or of the last
name, or (when the term has a space) the token before the first space is a
substring of the first name and the token after it of the last name; in
particular "Jane Doe" matches firstName "Jane" with lastName "Doe", and a
firstName containing "Jane Doe" as a single substring. -/
theorem c6_search_semantics :
    (∀ (t : String) (e : Employees.Employee),
      Employees.matchesWhere ⟨t, none, none, none, none, none, none⟩ e =
        Employees.specSearchMatches t e.firstName e.lastName)
    ∧ Employees.matchesSearch "Jane Doe" "Jane" "Doe" = true
    ∧ Employees.matchesSearch "Jane Doe" "aJane Doeb" "Smith" = true := by
  refine ⟨?_, by decide, by decide⟩
  intro t e
  simp only [Employees.matchesWhere, Bool.and_true]
  exact matchesSearchL_eq_spec t.toList e.firstName.toList e.lastName.toList

/-! ### C10: reported totals of the employee listing -/

/-- **C10.** The reported `total` equals the matching count exactly when
the returned page is non-empty: an empty returned list forces `total = 0`
even when the matching count is positive, `take = 0` always returns an
empty list, and with `take` absent `perPage` equals that `total`. -/
theorem c10_total_metadata :
    ∀ (db : List Employees.Employee)
      (ord : List Employees.Employee → List Employees.Employee)
      (q : Employees.EmpQuery),
      ((Employees.getEmployees db ord q).2 ≠ [] →
        (Employees.getEmployees db ord q).1.total =
          (db.filter (Employees.matchesWhere q)).length) ∧
      (0 < (db.filter (Employees.matchesWhere q)).length →
        (Employees.getEmployees db ord q).2 = [] →
        (Employees.getEmployees db ord q).1.total = 0) ∧
      (q.take = some 0 → (Employees.getEmployees db ord q).2 = []) ∧
      (q.take = none →
        (Employees.getEmployees db ord q).1.perPage =
          (Employees.getEmployees db ord q).1.total) := by
  intro db ord q
  refine ⟨?_, ?_, ?_, ?_⟩
  · intro hne
    have hne' : Employees.empPage db ord q ≠ [] := hne
    show Employees.empTotal db ord q = (db.filter (Employees.matchesWhere q)).length
    unfold Employees.empTotal
    rw [if_pos (List.length_pos.mpr hne')]
  · intro _ hnil
    have hnil' : Employees.empPage db ord q = [] := hnil
    show Employees.empTotal db ord q = 0
    unfold Employees.empTotal
    rw [hnil']
    simp
  · intro htake
    show Employees.empPage db ord q = []
    unfold Employees.empPage
    rw [htake]
    simp
  · intro htake
    show (match q.take with
        | some t => t
        | none => Employees.empTotal db ord q) = Employees.empTotal db ord q
    rw [htake]

/-- An employee row used by concrete listing inputs. -/
def eA : Employees.Employee := ⟨"e1", "Jane", "Doe", "USD", "Dev", "JS", 100, true, 0⟩

/-- A second employee row for pagination inputs. -/
def eB : Employees.Employee := ⟨"e2", "John", "Roe", "USD", "Dev", "JS", 90, true, 0⟩

/-- A query with `page = "2"` and the truthy-but-zero `take = "0"`. -/
def qTake0 : Employees.EmpQuery := ⟨"", none, none, none, none, some 0, some 2⟩

/-- A query with neither `page` nor `take`. -/
def qNoTake : Employees.EmpQuery := ⟨"", none, none, none, none, none, none⟩

/-- **C10, witness.** `take = 0` over a store with one matching employee:
empty page, reported total 0 despite a positive count; with `take` absent,
`perPage` equals `total`. -/
theorem c10_total_metadata_witness :
    (Employees.getEmployees [eA] (fun l => l) qTake0).2 = [] ∧
      (Employees.getEmployees [eA] (fun l => l) qTake0).1.total = 0 ∧
      (Employees.getEmployees [eA] (fun l => l) qNoTake).1.perPage =
        (Employees.getEmployees [eA] (fun l => l) qNoTake).1.total := by
  have h1 := c10_total_metadata [eA] (fun l => l) qTake0
  have h2 := c10_total_metadata [eA] (fun l => l) qNoTake
  have hempty := h1.2.2.1 (by rfl)
  exact ⟨hempty, h1.2.1 (by decide) hempty, h2.2.2.2 (by rfl)⟩

/-! ### C5: pagination clamping -/

/-- **C5, counterexample.** With `page = "2"` and `take = "0"` over an
empty matching set the requested offset `(2-1)*0 = 0` is at (hence "at or
beyond") the matching count 0, yet the reported `currentPage` is 2, not 1:
`lastPage` is the non-finite `Math.ceil(0/0)` and the JS comparison
`page > NaN` is false, so the clamp never fires. -/
theorem c5_counterexample :
    (([] : List Employees.Employee).filter (Employees.matchesWhere qTake0)).length ≤
        (2 - 1) * 0 ∧
      (Employees.getEmployees [] (fun l => l) qTake0).1.currentPage = 2 := by
  exact ⟨by simp, by rfl⟩

/-- **C5, amended.** For requests with `page = p ≥ 1` and `take = t ≥ 1`
(the degenerate `take = "0"` is excluded: it returns an empty list and
leaves `currentPage` unclamped at the requested page), and any
length-preserving ordering: when the offset `(p-1)*t` is at or beyond the
matching count, no offset is applied — the returned data equals that of
the same request with `page = 1` — and the reported `currentPage` is 1;
when the offset is within range, the returned data is the requested
page's slice and `currentPage` is the requested page. -/
theorem c5_pagination_amended :
    ∀ (db : List Employees.Employee)
      (ord : List Employees.Employee → List Employees.Employee)
      (q : Employees.EmpQuery) (p t : Nat),
      q.page = some p → q.take = some t → 1 ≤ p → 1 ≤ t →
      (∀ l, (ord l).length = l.length) →
      (((db.filter (Employees.matchesWhere q)).length ≤ (p - 1) * t →
        (Employees.getEmployees db ord q).2 =
            (Employees.getEmployees db ord { q with page := some 1 }).2 ∧
          (Employees.getEmployees db ord q).1.currentPage = 1) ∧
        ((p - 1) * t < (db.filter (Employees.matchesWhere q)).length →
          (Employees.getEmployees db ord q).2 =
              ((ord (db.filter (Employees.matchesWhere q))).drop
                ((p - 1) * t)).take t ∧
            (Employees.getEmployees db ord q).1.currentPage = p)) := by
  intro db ord q p t hqp hqt hp ht hord
  have hA : (p - 1) * t = p * t - t := Nat.sub_one_mul p t
  have hB : t ≤ p * t := Nat.le_mul_of_pos_left t hp
  have hskip : Employees.empSkip q = (p - 1) * t := by
    unfold Employees.empSkip
    rw [hqp, hqt]
  have hordlen : (ord (db.filter (Employees.matchesWhere q))).length =
      (db.filter (Employees.matchesWhere q)).length := hord _
  have hcurr : ∀ lp : Nat,
      Employees.empLastPage? db ord q = some lp →
      Employees.empCurrentPage db ord q = (if lp < p then 1 else p) := by
    intro lp hlp
    unfold Employees.empCurrentPage
    rw [hqp]
    simp only []
    rw [hlp]
  constructor
  · intro hge
    have hpageq : Employees.empPage db ord q =
        (ord (db.filter (Employees.matchesWhere q))).take t := by
      unfold Employees.empPage
      rw [hqt, hskip, if_neg (by omega)]
    have hpage1 : ∀ q' : Employees.EmpQuery, q'.page = some 1 → q'.take = some t →
        Employees.matchesWhere q' = Employees.matchesWhere q →
        Employees.empPage db ord q' =
          (ord (db.filter (Employees.matchesWhere q))).take t := by
      intro q' h1 h2 hw
      have hskip1 : Employees.empSkip q' = 0 := by
        unfold Employees.empSkip
        rw [h1, h2]
        simp
      unfold Employees.empPage
      rw [h2, hskip1, hw]
      by_cases hc : 0 < (db.filter (Employees.matchesWhere q)).length
      · rw [if_pos hc, List.drop_zero]
      · rw [if_neg hc]
    have hlen : (Employees.empPage db ord q).length =
        min t (db.filter (Employees.matchesWhere q)).length := by
      rw [hpageq, List.length_take, hordlen]
    have htot : Employees.empTotal db ord q =
        (if 0 < min t (db.filter (Employees.matchesWhere q)).length then
          (db.filter (Employees.matchesWhere q)).length else 0) := by
      unfold Employees.empTotal
      rw [hlen]
    refine ⟨?_, ?_⟩
    · show Employees.empPage db ord q =
        Employees.empPage db ord { q with page := some 1 }
      rw [hpageq, hpage1 { q with page := some 1 } rfl hqt rfl]
    · show Employees.empCurrentPage db ord q = 1
      have hlp : Employees.empLastPage? db ord q =
          some ((Employees.empTotal db ord q + t - 1) / t) := by
        unfold Employees.empLastPage?
        rw [hqt]
        simp only []
        rw [if_neg (show ¬t = 0 by omega)]
      by_cases hcnt : 0 < (db.filter (Employees.matchesWhere q)).length
      · have htot' : Employees.empTotal db ord q =
            (db.filter (Employees.matchesWhere q)).length := by
          rw [htot, if_pos (by omega)]
        have hltp : (Employees.empTotal db ord q + t - 1) / t < p := by
          rw [htot', Nat.div_lt_iff_lt_mul (show 0 < t by omega)]
          omega
        rw [hcurr _ hlp, if_pos hltp]
      · have htot' : Employees.empTotal db ord q = 0 := by
          rw [htot, if_neg (by omega)]
        have hltp : (Employees.empTotal db ord q + t - 1) / t < p := by
          rw [htot']
          have hz : (0 + t - 1) / t = 0 := Nat.div_eq_of_lt (by omega)
          rw [hz]
          omega
        rw [hcurr _ hlp, if_pos hltp]
  · intro hlt
    have hpageq : Employees.empPage db ord q =
        ((ord (db.filter (Employees.matchesWhere q))).drop ((p - 1) * t)).take t := by
      unfold Employees.empPage
      rw [hqt, hskip, if_pos hlt]
    have hlen : (Employees.empPage db ord q).length =
        min t ((db.filter (Employees.matchesWhere q)).length - (p - 1) * t) := by
      rw [hpageq, List.length_take, List.length_drop, hordlen]
    have htot' : Employees.empTotal db ord q =
        (db.filter (Employees.matchesWhere q)).length := by
      unfold Employees.empTotal
      rw [hlen, if_pos (by omega)]
    refine ⟨hpageq, ?_⟩
    show Employees.empCurrentPage db ord q = p
    have hlp : Employees.empLastPage? db ord q =
        some ((Employees.empTotal db ord q + t - 1) / t) := by
      unfold Employees.empLastPage?
      rw [hqt]
      simp only []
      rw [if_neg (show ¬t = 0 by omega)]
    have hnltp : ¬(Employees.empTotal db ord q + t - 1) / t < p := by
      rw [htot', Nat.div_lt_iff_lt_mul (show 0 < t by omega)]
      omega
    rw [hcurr _ hlp, if_neg hnltp]

/-- A query requesting page 5 of size 1 (offset beyond the count 2). -/
def c5qa : Employees.EmpQuery := ⟨"", none, none, none, none, some 1, some 5⟩

/-- A query requesting page 2 of size 1 (offset within the count 2). -/
def c5qb : Employees.EmpQuery := ⟨"", none, none, none, none, some 1, some 2⟩

/-- **C5, amended, witness.** Concrete out-of-range and in-range requests
over a two-employee store. -/
theorem c5_pagination_amended_witness :
    ((Employees.getEmployees [eA, eB] (fun l => l) c5qa).2 =
        (Employees.getEmployees [eA, eB] (fun l => l)
          { c5qa with page := some 1 }).2 ∧
      (Employees.getEmployees [eA, eB] (fun l => l) c5qa).1.currentPage = 1) ∧
    ((Employees.getEmployees [eA, eB] (fun l => l) c5qb).2 =
        (((fun l => l) ([eA, eB].filter (Employees.matchesWhere c5qb))).drop
          ((2 - 1) * 1)).take 1 ∧
      (Employees.getEmployees [eA, eB] (fun l => l) c5qb).1.currentPage = 2) :=
  ⟨(c5_pagination_amended [eA, eB] (fun l => l) c5qa 5 1 (by rfl) (by rfl)
      (by omega) (by omega) (fun l => rfl)).1 (by decide),
    (c5_pagination_amended [eA, eB] (fun l => l) c5qb 2 1 (by rfl) (by rfl)
      (by omega) (by omega) (fun l => rfl)).2 (by decide)⟩

/-! ### C8: the employed-since timestamp -/

/-- **C8.** On an admin-authorized employee update of an existing record,
the stored `isEmployedDate` becomes `now` exactly when the request
supplies an `isEmployed` value differing from the stored one, and is kept
otherwise; every other supplied field is still written. -/
theorem c8_isEmployedDate_update :
    ∀ (c : Users1.Caller) (db : List Employees.Employee) (employeeId : String)
      (body : Employees.EmpUpdate) (now : Nat) (emp : Employees.Employee),
      c.role = Role.Admin →
      db.find? (fun e => e.id = employeeId) = some emp →
      ∃ emp',
        Employees.updateEmployee (some c) db employeeId body now =
          .ok (db.map (fun e => if e.id = employeeId then emp' else e), emp') ∧
        emp'.isEmployedDate =
          (match body.isEmployed with
            | some b => if b = emp.isEmployed then emp.isEmployedDate else now
            | none => emp.isEmployedDate) ∧
        emp'.isEmployed = body.isEmployed.getD emp.isEmployed ∧
        emp'.firstName = body.firstName.getD emp.firstName ∧
        emp'.lastName = body.lastName.getD emp.lastName ∧
        emp'.department = body.department.getD emp.department ∧
        emp'.currency = body.currency.getD emp.currency ∧
        emp'.techStack = body.techStack.getD emp.techStack ∧
        emp'.salary = (match body.salary with
          | some sa => if sa = 0 then emp.salary else sa
          | none => emp.salary) := by
  intro c db employeeId body now emp hrole hfind
  unfold Employees.updateEmployee
  simp only []
  rw [if_neg (by simp [hrole]), hfind]
  simp only []
  refine ⟨_, rfl, ?_, rfl, rfl, rfl, rfl, rfl, rfl, rfl⟩
  cases hb : body.isEmployed with
  | none => rfl
  | some b =>
    by_cases hbe : b = emp.isEmployed
    · simp [hbe]
    · simp [hbe]

/-- The stored employee for the C8 witness: currently not employed. -/
def c8emp : Employees.Employee := ⟨"e1", "Jane", "Doe", "USD", "Dev", "JS", 100, false, 5⟩

/-- The C8 witness body: flips `isEmployed` to `true`, all else absent. -/
def c8body : Employees.EmpUpdate := ⟨none, none, none, none, none, none, some true⟩

/-- **C8, witness.** The admin update flipping `isEmployed` on a concrete
record restamps `isEmployedDate` with `now = 99`. -/
theorem c8_isEmployedDate_update_witness :
    ∃ emp',
      Employees.updateEmployee (some ⟨"a1", Role.Admin⟩) [c8emp] "e1" c8body 99 =
        .ok ([c8emp].map (fun e => if e.id = "e1" then emp' else e), emp') ∧
      emp'.isEmployedDate =
        (match c8body.isEmployed with
          | some b => if b = c8emp.isEmployed then c8emp.isEmployedDate else 99
          | none => c8emp.isEmployedDate) ∧
      emp'.isEmployed = c8body.isEmployed.getD c8emp.isEmployed ∧
      emp'.firstName = c8body.firstName.getD c8emp.firstName ∧
      emp'.lastName = c8body.lastName.getD c8emp.lastName ∧
      emp'.department = c8body.department.getD c8emp.department ∧
      emp'.currency = c8body.currency.getD c8emp.currency ∧
      emp'.techStack = c8body.techStack.getD c8emp.techStack ∧
      emp'.salary = (match c8body.salary with
        | some sa => if sa = 0 then c8emp.salary else sa
        | none => c8emp.salary) :=
  c8_isEmployedDate_update ⟨"a1", Role.Admin⟩ [c8emp] "e1" c8body 99 c8emp
    (by rfl) (by rfl)

end ProjectFire

namespace ProjectFire

/-! ### C1 example data -/

/-- An Admin user for the C1 counterexample. -/
def adminU : Users1.User := ⟨"a1", "admin@x.com", "h", Role.Admin⟩

/-! ### C2 example data -/

/-- Store for the C2 counterexample: one Guest target with an employee. -/
def c2State : Users0.MState :=
  { users := [⟨"u2", "guest@x.com", "h", "G", "T", Role.Guest, some "e1"⟩],
    employees := [⟨"e1", "G", "T"⟩],
    projects := [],
    tokens := [] }

/-- Expected store after the C2 delete. -/
def c2State' : Users0.MState :=
  { users := [], employees := [], projects := [], tokens := [] }

/-- **C1, counterexample.** The claim says a delete request targeting an
Admin user always fails with 403 and the record is kept, for every caller
including that Admin.  In the part_001 controller an Admin deleting their
own account passes both guards: the request succeeds and the record is
removed. -/
theorem c1_counterexample :
    Users1.deleteUser (some ⟨"a1", Role.Admin⟩) [adminU] "a1" = .ok [] := by
  rfl

/-- **C1, amended.** Deleting an Admin target fails with 403 in the
part_000 controller unconditionally, and in the part_001 controller for
every caller other than that same Admin — whether the caller is absent,
fails the self-or-Admin guard, or is a different Admin hitting the
admin-target guard, the response is a 403 error; the part_001 controller
lets an Admin delete their own record. -/
theorem c1_amended :
    (∀ (s : Users0.MState) (userId : String) (body : Option String) (u : Users0.MUser),
      s.users.find? (fun v => v.id = userId) = some u → u.role = Role.Admin →
      Users0.deleteUser s userId body = (s, .error ⟨403, "Cannot delete an admin user."⟩))
    ∧
    (∀ (caller : Option Users1.Caller) (users : List Users1.User) (userId : String)
      (u : Users1.User),
      users.find? (fun v => v.id = userId) = some u → u.role = Role.Admin →
      (match caller with | some c => ¬(c.id = u.id) | none => True) →
      ∃ e : HttpError, Users1.deleteUser caller users userId = .error e ∧
        e.status = 403) := by
  constructor
  · intro s userId body u hfind hrole
    unfold Users0.deleteUser
    rw [hfind]
    simp [hrole]
  · intro caller users userId u hfind hrole hne
    have hmis : Users1.idMismatch caller u.id = true := by
      cases caller with
      | none => rfl
      | some c =>
        have hne' : ¬(c.id = u.id) := hne
        simp only [Users1.idMismatch]
        simpa using fun h : u.id = c.id => hne' h.symm
    unfold Users1.deleteUser
    rcases hcf : Users1.callerForbidden caller userId with _ | _
    · rw [hfind]
      refine ⟨⟨403, "Cannot delete an admin user."⟩, ?_, rfl⟩
      simp [hcf, hrole, hmis]
    · exact ⟨⟨403, "This user is not allowed to delete other users."⟩,
        by simp [hcf], rfl⟩

/-- **C1, amended, witness.** Concrete callers hitting the 403 on an
Admin target in both controllers: part_000 with no caller involved, and
part_001 for a different Admin, a non-self Guest, and an absent caller. -/
theorem c1_amended_witness :
    Users0.deleteUser ⟨[⟨"a1", "a@x", "h", "A", "B", Role.Admin, none⟩], [], [], []⟩
        "a1" none =
      (⟨[⟨"a1", "a@x", "h", "A", "B", Role.Admin, none⟩], [], [], []⟩,
        .error ⟨403, "Cannot delete an admin user."⟩)
    ∧ (∃ e : HttpError,
        Users1.deleteUser (some ⟨"g1", Role.Admin⟩) [adminU] "a1" = .error e ∧
          e.status = 403)
    ∧ (∃ e : HttpError,
        Users1.deleteUser (some ⟨"g7", Role.Guest⟩) [adminU] "a1" = .error e ∧
          e.status = 403)
    ∧ (∃ e : HttpError,
        Users1.deleteUser none [adminU] "a1" = .error e ∧ e.status = 403) := by
  refine ⟨?_, ?_, ?_, ?_⟩
  · exact c1_amended.1 ⟨[⟨"a1", "a@x", "h", "A", "B", Role.Admin, none⟩], [], [], []⟩
      "a1" none ⟨"a1", "a@x", "h", "A", "B", Role.Admin, none⟩ (by rfl) (by rfl)
  · exact c1_amended.2 (some ⟨"g1", Role.Admin⟩) [adminU] "a1" adminU
      (by rfl) (by rfl) (by decide)
  · exact c1_amended.2 (some ⟨"g7", Role.Guest⟩) [adminU] "a1" adminU
      (by rfl) (by rfl) (by decide)
  · exact c1_amended.2 none [adminU] "a1" adminU
      (by rfl) (by rfl) trivial

/-- **C2, counterexample.** The claim says every delete succeeds only when
the caller is the target or an Admin, with 403 otherwise.  The part_000
delete handler never inspects the authenticated caller: this concrete
request (target a Guest user, request body naming a different id) succeeds
and deletes the records no matter who the caller is, so in particular for
a caller that is neither the target nor an Admin. -/
theorem c2_counterexample :
    Users0.deleteUser c2State "u2" (some "u3") =
      (c2State', .ok "User deleted successfully.") := by
  rfl

/-- **C2, amended.** The part_001 controller enforces the rule: a request
whose caller is absent, or neither an Admin nor the target, fails with
403, and every successful part_001 delete has a caller that is the target
or an Admin (the same guard as its update handler).  The part_000
controller performs no caller-based authorization: its only
caller-adjacent check is rejecting a request body whose userId equals the
target id, so every successful part_000 delete merely has a mismatching
body. -/
theorem c2_amended :
    (∀ (caller : Option Users1.Caller) (users : List Users1.User) (userId : String),
      Users1.callerForbidden caller userId = true →
      Users1.deleteUser caller users userId =
        .error ⟨403, "This user is not allowed to delete other users."⟩)
    ∧
    (∀ (caller : Option Users1.Caller) (users : List Users1.User) (userId : String)
      (res : List Users1.User),
      Users1.deleteUser caller users userId = .ok res →
      ∃ c, caller = some c ∧ (c.role = Role.Admin ∨ c.id = userId))
    ∧
    (∀ (caller : Option Users1.Caller) (userId : String),
      Users1.updateUserCallerForbidden caller userId = Users1.callerForbidden caller userId)
    ∧
    (∀ (s : Users0.MState) (userId : String) (body : Option String)
      (s' : Users0.MState) (msg : String),
      Users0.deleteUser s userId body = (s', .ok msg) → body ≠ some userId) := by
  refine ⟨?_, ?_, ?_, ?_⟩
  · intro caller users userId h
    unfold Users1.deleteUser
    rw [h]
    rfl
  · intro caller users userId res h
    unfold Users1.deleteUser at h
    rcases hc : Users1.callerForbidden caller userId with _ | _
    · match caller, hc with
      | some c, hc =>
        refine ⟨c, rfl, ?_⟩
        by_contra hcon
        push_neg at hcon
        simp [Users1.callerForbidden, hcon.1, hcon.2] at hc
    · rw [hc] at h
      simp at h
  · intro caller userId
    rfl
  · intro s userId body s' msg h
    intro hbody
    unfold Users0.deleteUser at h
    rcases hfind : s.users.find? (fun u => u.id = userId) with _ | u
    · rw [hfind] at h; simp at h
    · rw [hfind] at h
      by_cases hrole : u.role = Role.Admin
      · simp [hrole] at h
      · simp [hrole, hbody] at h

/-- **C2, amended, witness.** The part_001 guard rejecting a concrete
Guest caller that is not the target. -/
theorem c2_amended_witness :
    Users1.deleteUser (some ⟨"g7", Role.Guest⟩) [adminU] "a1" =
      .error ⟨403, "This user is not allowed to delete other users."⟩ := by
  exact c2_amended.1 (some ⟨"g7", Role.Guest⟩) [adminU] "a1" (by rfl)

end ProjectFire
